import Mathlib

/-!
Verification of the wave lighting-effect plugin
(`src/keyledsd/src/plugins/wave.cxx`).

The development shallowly embeds the plugin's data model and algorithms:
  * `generateColorTable` — the static gradient table builder;
  * `phaseVal`, `computePhasesFrom`, `computePhasesGroup` — the
    geometry-to-phase mapper `WavePlugin::computePhases`;
  * `stepTime`, `globalPhase`, `renderIndex`, `render` — the per-frame
    sampler `WavePlugin::render`;
  * `configValue`, `selectKeys` — the constructor's parameter defaulting
    and key-group resolution.

C++ `int` arithmetic is modelled on `ℤ` (truncating division `Int.tdiv`
and remainder `Int.tmod`, as in C++), C++ `unsigned` on `ℕ`.  The float
arithmetic of the colour interpolation is modelled exactly on `ℚ`; on the
inputs appearing in the claims every float operation of the source is
exact, so the models agree with the source there.  The trigonometric
computation of `freqX`/`freqY` is kept abstract: the two values enter the
model as arbitrary integer parameters, and every theorem below holds for
all of them.
-/

namespace Keyleds

/-- Embeds `keyleds::RGBAColor`: four 8-bit channels, modelled on `ℕ`. -/
structure RGBAColor where
  red : Nat
  green : Nat
  blue : Nat
  alpha : Nat
deriving DecidableEq, Repr

/-- The default colour used for out-of-range reads in the model. -/
def black : RGBAColor := ⟨0, 0, 0, 0⟩

/-- Embeds `static constexpr int accuracy = 1024;` — the size N of the cyclic
phase domain and of the colour table. -/
def accuracy : Nat := 1024

/-- One channel of
`RGBAColor::channel_type(colorA.c * (1.0f - ratio) + colorB.c * ratio)`
with `ratio = float(idx - first) / float(last - first)`.  The float
expression is modelled exactly on `ℚ`; the `channel_type` conversion
truncates, which on the non-negative values arising here is the floor. -/
def interpChannel (a b k len : Nat) : Nat :=
  let q : ℚ := (k : ℚ) / (len : ℚ)
  (⌊(a : ℚ) * (1 - q) + (b : ℚ) * q⌋).toNat

/-- The interpolated `RGBAColor` written at relative position `k` of a
gradient range of length `len` (inner loop of `generateColorTable`). -/
def interpColor (ca cb : RGBAColor) (k len : Nat) : RGBAColor :=
  ⟨interpChannel ca.red cb.red k len,
   interpChannel ca.green cb.green k len,
   interpChannel ca.blue cb.blue k len,
   interpChannel ca.alpha cb.alpha k len⟩

/-- The table entries written by iteration `r` of the outer loop of
`WavePlugin::generateColorTable`: `first = r * N / count`,
`last = (r+1) * N / count`, `colorA = colors[r]`,
`colorB = colors[r + 1 >= count ? 0 : r + 1]`, and entry `first + k`
interpolates between them at ratio `k / (last - first)`. -/
def rangeSegment (colors : List RGBAColor) (r : Nat) : List RGBAColor :=
  let first := r * accuracy / colors.length
  let last := (r + 1) * accuracy / colors.length
  let colorA := colors.getD r black
  let colorB := colors.getD (if r + 1 ≥ colors.length then 0 else r + 1) black
  (List.range (last - first)).map (fun k => interpColor colorA colorB k (last - first))

/-- Embeds `WavePlugin::generateColorTable`: a table of `accuracy` entries.  The
C++ loop writes the contiguous, disjoint index ranges
`[r*N/count, (r+1)*N/count)` in increasing order of `r`; since they tile
`[0, N)` exactly, the final table is the concatenation of the per-range
segments.  With no colours the loop body never runs and the
value-initialised table of `accuracy` zero colours is returned. -/
def generateColorTable (colors : List RGBAColor) : List RGBAColor :=
  if colors.isEmpty then List.replicate accuracy black
  else (List.range colors.length).flatMap (rangeSegment colors)

/-- The white gradient stop `{255,255,255,255}` of the spec's Scenario 2. -/
def white : RGBAColor := ⟨255, 255, 255, 255⟩

/-- A grey level: all four channels equal to `v`. -/
def gray (v : Nat) : RGBAColor := ⟨v, v, v, v⟩

/-- The state of a `WavePlugin` instance used by `render`: the time
accumulator `m_time`, the period `m_period`, the buffer indices
`m_keys[idx].index` of the configured key group (empty in whole-buffer
mode), the phase table `m_phases` and the colour table `m_colors`. -/
structure WaveState where
  time : Nat
  period : Nat
  keys : List Nat
  phases : List Int
  colors : List RGBAColor
deriving DecidableEq, Repr

/-- Embeds `m_time += ms; if (m_time >= m_period) { m_time -= m_period; }` -/
def stepTime (time period ms : Nat) : Nat :=
  let t := time + ms
  if t ≥ period then t - period else t

/-- Embeds `int t = accuracy * m_time / m_period;` -/
def globalPhase (time period : Nat) : Nat := accuracy * time / period

/-- Embeds `int tphi = t - m_phases[idx]; if (tphi < 0) { tphi += accuracy; }` -/
def renderIndex (t phi : Int) : Int :=
  let tphi := t - phi
  if tphi < 0 then tphi + (accuracy : Int) else tphi

/-- The writes performed by the two loops of `WavePlugin::render`, as
(buffer index, colour) pairs: with no key group, element `idx` is written
at buffer slot `idx`; with a key group, at `m_keys[idx].index`. -/
def renderWrites (keys : List Nat) (phases : List Int) (colors : List RGBAColor) (t : Int) :
    List (Nat × RGBAColor) :=
  if keys = [] then
    (List.range phases.length).map
      (fun idx => (idx, colors.getD (renderIndex t (phases.getD idx 0)).toNat black))
  else
    (List.range keys.length).map
      (fun idx => (keys.getD idx 0, colors.getD (renderIndex t (phases.getD idx 0)).toNat black))

/-- Embeds `WavePlugin::render`: advance the time accumulator, wrap it once,
derive the global phase, and write one colour per element. -/
def render (s : WaveState) (ms : Nat) : WaveState × List (Nat × RGBAColor) :=
  let time := stepTime s.time s.period ms
  let t : Int := (globalPhase time s.period : Nat)
  (⟨time, s.period, s.keys, s.phases, s.colors⟩,
   renderWrites s.keys s.phases s.colors t)

/-- The buffer content produced by the most recent `render` call that
left the plugin in state `s`. -/
def writesAt (s : WaveState) : List (Nat × RGBAColor) :=
  renderWrites s.keys s.phases s.colors ((globalPhase s.time s.period : Nat) : Int)

/-- The constructor's scalar-parameter pattern: the member is initialised
to its default and overwritten only when the supplied value is positive —
`m_period = 10000; auto period = std::stoul(conf["period"]); if (period > 0)
{ m_period = period; }` and likewise for `length` and `direction`.  The
supplied value is the result of `std::stoul`, an unsigned integer. -/
def configValue (supplied dflt : Nat) : Nat :=
  if supplied > 0 then supplied else dflt

/-- Embeds `m_period`, default 10000. -/
def setupPeriod (supplied : Nat) : Nat := configValue supplied 10000

/-- Embeds `m_length`, default 1000. -/
def setupLength (supplied : Nat) : Nat := configValue supplied 1000

/-- Embeds `m_direction`, default 0. -/
def setupDirection (supplied : Nat) : Nat := configValue supplied 0

/-- A `keyleds::KeyDatabase::KeyGroup` as far as the constructor uses it:
a name and the list of buffer indices of its keys. -/
structure KeyGroupModel where
  name : String
  keys : List Nat
deriving DecidableEq, Repr

/-- The constructor's key-group resolution: `m_keys` starts empty; when
`conf["group"]` is non-empty, `std::find_if` searches `groups` for a
matching name and `m_keys` is assigned only when the search succeeds. -/
def selectKeys (groupStr : String) (groups : List KeyGroupModel) : List Nat :=
  if groupStr.isEmpty then []
  else
    match groups.find? (fun g => g.name == groupStr) with
    | some g => g.keys
    | none => []

/-- The group name used in the C9 witness. -/
def witnessGroupName : String := "fnkeys"

/-- Another group name, present in the witness group list. -/
def otherGroupName : String := "alphas"

/-- A key's bounding rectangle (`position.x0` … `position.y1`), also used
for the database-wide bounding box `manager.keyDB().bounds()`. -/
structure KeyPosition where
  x0 : Int
  y0 : Int
  x1 : Int
  y1 : Int
deriving DecidableEq, Repr

/-- One device block as `computePhases` consumes it: the number of keys
reported by `block.keys().size()` and the number of render-target slots
the block occupies (its keys plus the padding up to the next block's
first slot, `nextPtr - curPtr` keys past the end). -/
structure BlockModel where
  keyCount : Nat
  capacity : Nat
deriving DecidableEq, Repr

/-- The device geometry consumed by `computePhases`: the block list,
the key database lookup `manager.keyDB().find(key_descriptor{bidx, kidx})`
(`none` when the key is missing from the database), and the overall
bounding box. -/
structure DeviceModel where
  blocks : List BlockModel
  lookup : Nat → Nat → Option KeyPosition
  bounds : KeyPosition

/-- Embeds `x = accuracy * (x - bounds.x0) / (bounds.x1 - bounds.x0);` with C++
`int` division (truncation towards zero). -/
def normX (bounds : KeyPosition) (x : Int) : Int :=
  ((accuracy : Int) * (x - bounds.x0)).tdiv (bounds.x1 - bounds.x0)

/-- Embeds `y = accuracy - accuracy * (y - bounds.x0) / (bounds.x1 - bounds.x0);`
— note that the source uses the X-axis bounds `x0`/`x1` here as well. -/
def normY (bounds : KeyPosition) (y : Int) : Int :=
  (accuracy : Int) - ((accuracy : Int) * (y - bounds.x0)).tdiv (bounds.x1 - bounds.x0)

/-- Modelled from the spec: the Y normalization the spec expects,
measuring the Y midpoint against the Y-axis bounds
(`accuracy - accuracy * (y - bounds.y0) / (bounds.y1 - bounds.y0)`),
for comparison with the source's `normY`. -/
def normYSpec (bounds : KeyPosition) (y : Int) : Int :=
  (accuracy : Int) - ((accuracy : Int) * (y - bounds.y0)).tdiv (bounds.y1 - bounds.y0)

/-- The phase computed for one element (identical in the two code paths
of `computePhases`): midpoint, the origin special case, normalization,
then `auto val = (freqX * x + freqY * y) / accuracy % accuracy;
if (val < 0) { val += accuracy; }` with truncating `/` and `%`. -/
def phaseVal (freqX freqY : Int) (bounds pos : KeyPosition) : Int :=
  let x := (pos.x0 + pos.x1).tdiv 2
  let y := (pos.y0 + pos.y1).tdiv 2
  if x = 0 ∧ y = 0 then 0
  else
    let xn := normX bounds x
    let yn := normY bounds y
    let val := ((freqX * xn + freqY * yn).tdiv (accuracy : Int)).tmod (accuracy : Int)
    if val < 0 then val + (accuracy : Int) else val

/-- The phase entries contributed by one block in whole-buffer mode: one
entry per key (`0` with a warning when the database lookup fails), then
`nextPtr - curPtr` filler zeroes for the slots between this block's last
key and the next block's first slot. -/
def blockPhases (lookup : Nat → Nat → Option KeyPosition) (bounds : KeyPosition)
    (freqX freqY : Int) (bidx : Nat) (b : BlockModel) : List Int :=
  (List.range b.keyCount).map (fun kidx =>
    match lookup bidx kidx with
    | none => 0
    | some pos => phaseVal freqX freqY bounds pos)
  ++ List.replicate (b.capacity - b.keyCount) 0

/-- The whole-buffer loop of `computePhases`, iterating blocks from index
`bidx` on and appending each block's entries in order. -/
def computePhasesFrom (lookup : Nat → Nat → Option KeyPosition) (bounds : KeyPosition)
    (freqX freqY : Int) : Nat → List BlockModel → List Int
  | _, [] => []
  | bidx, b :: rest =>
      blockPhases lookup bounds freqX freqY bidx b ++
        computePhasesFrom lookup bounds freqX freqY (bidx + 1) rest

/-- Embeds `computePhases` in whole-buffer mode (`m_keys.empty()`). -/
def computePhasesWhole (dev : DeviceModel) (freqX freqY : Int) : List Int :=
  computePhasesFrom dev.lookup dev.bounds freqX freqY 0 dev.blocks

/-- Embeds `computePhases` in explicit-group mode: one phase per key of
`m_keys`, from that key's own position. -/
def computePhasesGroup (keys : List KeyPosition) (bounds : KeyPosition)
    (freqX freqY : Int) : List Int :=
  keys.map (phaseVal freqX freqY bounds)

/-- The render-target buffer length: the total number of slots across
blocks. -/
def capSum (bs : List BlockModel) : Nat := (bs.map (fun b => b.capacity)).sum

/-- The buffer length of a device. -/
def bufferLength (dev : DeviceModel) : Nat := capSum dev.blocks

/-- A small concrete device: one block of two keys and four buffer slots;
only key (0,0) is in the database, with midpoint (10, 10); bounding box
x in [0, 100], y in [0, 40]. -/
def sampleDevice : DeviceModel where
  blocks := [⟨2, 4⟩]
  lookup := fun bidx kidx => if bidx = 0 ∧ kidx = 0 then some ⟨0, 0, 20, 20⟩ else none
  bounds := ⟨0, 0, 100, 40⟩

/-- The plugin state after a sequence of `render` calls with the given
elapsed-time deltas. -/
def renderSeq (s : WaveState) (ds : List Nat) : WaveState :=
  ds.foldl (fun st d => (render st d).1) s

theorem interpChannel_self (a k len : Nat) : interpChannel a a k len = a := by
  unfold interpChannel
  have h : (a : ℚ) * (1 - (k : ℚ) / (len : ℚ)) + (a : ℚ) * ((k : ℚ) / (len : ℚ)) = (a : ℚ) := by
    ring
  simp [h, Int.floor_natCast]

theorem interpColor_self (c : RGBAColor) (k len : Nat) : interpColor c c k len = c := by
  unfold interpColor
  simp [interpChannel_self]

/-- C6: With the single gradient stop `{255,0,0,255}`, the builder
produces a full table of exactly `accuracy` entries, uniformly
`{255,0,0,255}` at every index. -/
theorem wave_c6_single_stop_uniform :
    generateColorTable [⟨255, 0, 0, 255⟩] = List.replicate accuracy (⟨255, 0, 0, 255⟩ : RGBAColor) := by
  have hrange : List.range 1 = [0] := rfl
  unfold generateColorTable
  rw [if_neg (by simp)]
  simp only [List.length_cons, List.length_nil, hrange, List.flatMap_cons, List.flatMap_nil,
    List.append_nil]
  have hseg : rangeSegment [⟨255, 0, 0, 255⟩] 0 =
      (List.range 1024).map
        (fun k => interpColor ⟨255, 0, 0, 255⟩ ⟨255, 0, 0, 255⟩ k 1024) := by
    unfold rangeSegment
    norm_num [accuracy]
  rw [hseg, List.eq_replicate_iff]
  refine ⟨by simp [accuracy], ?_⟩
  intro b hb
  simp only [List.mem_map, List.mem_range] at hb
  obtain ⟨k, -, hk⟩ := hb
  rw [← hk, interpColor_self]

theorem interpChannel_eq_div (a b k len : Nat) (hlen : 0 < len) (hk : k ≤ len) :
    interpChannel a b k len = (a * (len - k) + b * k) / len := by
  unfold interpChannel
  have h0 : ((len : ℕ) : ℚ) ≠ 0 := Nat.cast_ne_zero.mpr hlen.ne'
  have hq : (a : ℚ) * (1 - (k : ℚ) / (len : ℚ)) + (b : ℚ) * ((k : ℚ) / (len : ℚ))
      = ((a * (len - k) + b * k : ℕ) : ℚ) / ((len : ℕ) : ℚ) := by
    push_cast [Nat.cast_sub hk]
    field_simp
  show (⌊(a : ℚ) * (1 - (k : ℚ) / (len : ℚ)) + (b : ℚ) * ((k : ℚ) / (len : ℚ))⌋).toNat
      = (a * (len - k) + b * k) / len
  rw [hq, Rat.floor_natCast_div_natCast, ← Int.natCast_div, Int.toNat_natCast]

theorem twoStop_table_eq :
    generateColorTable [black, white] =
      (List.range 512).map (fun k => interpColor black white k 512) ++
        (List.range 512).map (fun k => interpColor white black k 512) := by
  have hrange : List.range 2 = [0, 1] := rfl
  unfold generateColorTable
  rw [if_neg (by simp)]
  simp only [List.length_cons, List.length_nil, hrange, List.flatMap_cons, List.flatMap_nil,
    List.append_nil]
  have hseg0 : rangeSegment [black, white] 0 =
      (List.range 512).map (fun k => interpColor black white k 512) := by
    unfold rangeSegment
    norm_num [accuracy]
  have hseg1 : rangeSegment [black, white] 1 =
      (List.range 512).map (fun k => interpColor white black k 512) := by
    unfold rangeSegment
    norm_num [accuracy]
  rw [hseg0, hseg1]

theorem twoStop_length : (generateColorTable [black, white]).length = accuracy := by
  rw [twoStop_table_eq]
  simp [accuracy]

theorem twoStop_lower (i : Nat) (h : i < 512) :
    (generateColorTable [black, white]).getD i black = gray (255 * i / 512) := by
  rw [twoStop_table_eq]
  rw [List.getD_append _ _ _ _ (by simpa using h)]
  rw [List.getD_eq_getElem _ _ (by simpa using h)]
  rw [List.getElem_map]
  rw [List.getElem_range]
  have hch : interpChannel 0 255 i 512 = 255 * i / 512 := by
    rw [interpChannel_eq_div 0 255 i 512 (by norm_num) h.le]
    norm_num
  simp [interpColor, black, white, gray, hch, interpChannel_eq_div, h.le]

theorem twoStop_upper (i : Nat) (h1 : 512 ≤ i) (h2 : i < 1024) :
    (generateColorTable [black, white]).getD i black = gray (255 * (1024 - i) / 512) := by
  rw [twoStop_table_eq]
  rw [List.getD_append_right _ _ _ _ (by simpa using h1)]
  have hlt : i - 512 < 512 := by omega
  simp only [List.length_map, List.length_range]
  rw [List.getD_eq_getElem _ _ (by simpa using hlt)]
  rw [List.getElem_map]
  rw [List.getElem_range]
  have hch : interpChannel 255 0 (i - 512) 512 = 255 * (1024 - i) / 512 := by
    rw [interpChannel_eq_div 255 0 (i - 512) 512 (by norm_num) hlt.le]
    have : 512 - (i - 512) = 1024 - i := by omega
    rw [this]
    ring_nf
  simp [interpColor, black, white, gray, hch]

/-- C5 counterexample: with the two stops `{0,0,0,0}` and
`{255,255,255,255}` the entry at index 512 is the peak `{255,255,255,255}`
(start of the descending second range), not approximately
`{128,128,128,128}` as the claim states — every channel is off by 127. -/
theorem wave_c5_counterexample :
    (generateColorTable [black, white]).getD 512 black = ⟨255, 255, 255, 255⟩ ∧
      (⟨255, 255, 255, 255⟩ : RGBAColor) ≠ ⟨128, 128, 128, 128⟩ := by
  refine ⟨?_, by decide⟩
  rw [twoStop_upper 512 le_rfl (by norm_num)]
  decide

/-- C5 (amended): with stops `{0,0,0,0}` and `{255,255,255,255}` and
N = 1024, the table has N entries, `table[0] = {0,0,0,0}`,
`table[512] = {255,255,255,255}`, with the linear ramp
`table[i] = gray (255*i/512)` up across the first half and the linear ramp
`table[i] = gray (255*(1024-i)/512)` back down across the second half. -/
theorem wave_c5_two_stop_ramps :
    (generateColorTable [black, white]).length = accuracy ∧
      (generateColorTable [black, white]).getD 0 black = ⟨0, 0, 0, 0⟩ ∧
      (generateColorTable [black, white]).getD 512 black = ⟨255, 255, 255, 255⟩ ∧
      (∀ i, i < 512 →
        (generateColorTable [black, white]).getD i black = gray (255 * i / 512)) ∧
      (∀ i, 512 ≤ i → i < 1024 →
        (generateColorTable [black, white]).getD i black = gray (255 * (1024 - i) / 512)) := by
  refine ⟨twoStop_length, ?_, ?_, fun i hi => twoStop_lower i hi, fun i h1 h2 => twoStop_upper i h1 h2⟩
  · rw [twoStop_lower 0 (by norm_num)]
    decide
  · rw [twoStop_upper 512 le_rfl (by norm_num)]
    decide

/-- C5 witness: the amended theorem evaluated at indices 256 and 768. -/
theorem wave_c5_two_stop_ramps_witness :
    (generateColorTable [black, white]).getD 256 black = gray 127 ∧
      (generateColorTable [black, white]).getD 768 black = gray 127 := by
  have h1 := wave_c5_two_stop_ramps.2.2.2.1 256 (by norm_num)
  have h2 := wave_c5_two_stop_ramps.2.2.2.2 768 (by norm_num) (by norm_num)
  exact ⟨by rw [h1], by rw [h2]⟩

theorem render_eq (s : WaveState) (ms : Nat) :
    render s ms =
      (⟨stepTime s.time s.period ms, s.period, s.keys, s.phases, s.colors⟩,
        writesAt ⟨stepTime s.time s.period ms, s.period, s.keys, s.phases, s.colors⟩) := rfl

theorem stepTime_eq_mod (time period ms : Nat) (ht : time < period) (hms : ms ≤ period) :
    stepTime time period ms = (time + ms) % period := by
  unfold stepTime
  dsimp only
  split
  · rename_i h
    rw [Nat.mod_eq_sub_mod h, Nat.mod_eq_of_lt (by omega)]
  · rw [Nat.mod_eq_of_lt (by omega)]

theorem globalPhase_lt (time period : Nat) (hper : 0 < period) (ht : time < period) :
    globalPhase time period < accuracy := by
  unfold globalPhase
  rw [Nat.div_lt_iff_lt_mul hper]
  exact mul_lt_mul_of_pos_left ht (by norm_num [accuracy])

theorem renderIndex_bounds (t phi : Int) (h1 : 0 ≤ t) (h2 : t < (accuracy : Int))
    (h3 : 0 ≤ phi) (h4 : phi < (accuracy : Int)) :
    0 ≤ renderIndex t phi ∧ renderIndex t phi < (accuracy : Int) := by
  unfold renderIndex
  unfold accuracy at h2 h4 ⊢
  dsimp only
  split <;> omega

theorem renderIndex_eq_emod (t phi : Int) (h1 : 0 ≤ t) (h2 : t < (accuracy : Int))
    (h3 : 0 ≤ phi) (h4 : phi < (accuracy : Int)) :
    renderIndex t phi = (t - phi) % (accuracy : Int) := by
  unfold renderIndex
  unfold accuracy at h2 h4 ⊢
  dsimp only
  split <;> omega

theorem phases_getD_bounds (phases : List Int) (i : Nat)
    (hphi : ∀ p ∈ phases, 0 ≤ p ∧ p < (accuracy : Int)) :
    0 ≤ phases.getD i 0 ∧ phases.getD i 0 < (accuracy : Int) := by
  by_cases h : i < phases.length
  · rw [List.getD_eq_getElem _ _ h]
    exact hphi _ (List.getElem_mem h)
  · rw [List.getD_eq_default _ _ (le_of_not_lt h)]
    norm_num [accuracy]

/-- C1: with the accumulator in `[0, period)` and a delta of at most one
period, `render` advances the accumulator by the delta and subtracts the
period exactly once when the result reaches it (so the new accumulator is
`(time + ms) % period`), derives the global phase by truncating integer
division, and writes, for element `i`, the colour
`colorTable[(globalPhase - phase[i]) mod N]` — the single conditional
`+ N` of the source realising the Euclidean remainder — at buffer slot
`i` in whole-buffer mode and at slot `m_keys[i].index` in group mode. -/
theorem wave_c1_render (s : WaveState) (ms : Nat)
    (hper : 0 < s.period) (ht : s.time < s.period) (hms : ms ≤ s.period)
    (hphi : ∀ p ∈ s.phases, 0 ≤ p ∧ p < (accuracy : Int)) :
    (render s ms).1.time = (s.time + ms) % s.period ∧
      ∀ i, i < (render s ms).2.length →
        (render s ms).2.getD i (0, black) =
          ((if s.keys = [] then i else s.keys.getD i 0),
            s.colors.getD
              (((globalPhase ((s.time + ms) % s.period) s.period : Nat) - s.phases.getD i 0)
                  % (accuracy : Int)).toNat black) := by
  have hstep : stepTime s.time s.period ms = (s.time + ms) % s.period :=
    stepTime_eq_mod _ _ _ ht hms
  have htlt : (s.time + ms) % s.period < s.period := Nat.mod_lt _ hper
  have hgp : globalPhase ((s.time + ms) % s.period) s.period < accuracy :=
    globalPhase_lt _ _ hper htlt
  have htb1 : (0 : Int) ≤ (globalPhase ((s.time + ms) % s.period) s.period : Nat) :=
    Int.ofNat_nonneg _
  have htb2 : ((globalPhase ((s.time + ms) % s.period) s.period : Nat) : Int) < (accuracy : Int) := by
    exact_mod_cast hgp
  constructor
  · rw [render_eq]
    exact hstep
  · intro i hi
    have hb := phases_getD_bounds s.phases i hphi
    rw [render_eq] at hi ⊢
    dsimp only [writesAt] at hi ⊢
    unfold renderWrites at hi ⊢
    by_cases hk : s.keys = []
    · simp only [if_pos hk, List.length_map, List.length_range] at hi ⊢
      rw [List.getD_eq_getElem _ _ (by simpa using hi), List.getElem_map, List.getElem_range]
      rw [hstep, renderIndex_eq_emod _ _ htb1 htb2 hb.1 hb.2]
    · simp only [if_neg hk, List.length_map, List.length_range] at hi ⊢
      rw [List.getD_eq_getElem _ _ (by simpa using hi), List.getElem_map, List.getElem_range]
      rw [hstep, renderIndex_eq_emod _ _ htb1 htb2 hb.1 hb.2]

/-- C1 witness: period 1000, delta sequence 300, 300, 300, 300 starting
from accumulator 0 — the accumulator reads 300, 600, 900, 200, wrapping
exactly once at the fourth step. -/
theorem wave_c1_render_witness :
    (render ⟨0, 1000, [], [(0 : Int)], [black]⟩ 300).1.time = 300 ∧
      (render ⟨300, 1000, [], [(0 : Int)], [black]⟩ 300).1.time = 600 ∧
      (render ⟨600, 1000, [], [(0 : Int)], [black]⟩ 300).1.time = 900 ∧
      (render ⟨900, 1000, [], [(0 : Int)], [black]⟩ 300).1.time = 200 := by
  refine ⟨?_, ?_, ?_, ?_⟩
  · rw [(wave_c1_render _ 300 (by norm_num) (by norm_num) (by norm_num) (by decide)).1]
    decide
  · rw [(wave_c1_render _ 300 (by norm_num) (by norm_num) (by norm_num) (by decide)).1]
    decide
  · rw [(wave_c1_render _ 300 (by norm_num) (by norm_num) (by norm_num) (by decide)).1]
    decide
  · rw [(wave_c1_render _ 300 (by norm_num) (by norm_num) (by norm_num) (by decide)).1]
    decide

/-- C4: the configuration defaults are period 10000, length 1000 and
direction 0; a supplied value overrides its default exactly when it is
positive, and a supplied zero is silently ignored.  (The supplied values
are `std::stoul` results, so the value domain is unsigned and no negative
value can reach the comparison.) -/
theorem wave_c4_config_defaults (v : Nat) :
    setupPeriod 0 = 10000 ∧ setupLength 0 = 1000 ∧ setupDirection 0 = 0 ∧
      (0 < v → setupPeriod v = v ∧ setupLength v = v ∧ setupDirection v = v) := by
  refine ⟨rfl, rfl, rfl, fun hv => ?_⟩
  unfold setupPeriod setupLength setupDirection configValue
  rw [if_pos hv, if_pos hv, if_pos hv]
  exact ⟨rfl, rfl, rfl⟩

/-- C4 witness: supplied value 42 overrides all three defaults; supplied
zero keeps them. -/
theorem wave_c4_config_defaults_witness :
    setupPeriod 0 = 10000 ∧ setupPeriod 42 = 42 ∧ setupLength 42 = 42 ∧
      setupDirection 42 = 42 := by
  have h := wave_c4_config_defaults 42
  exact ⟨h.1, (h.2.2.2 (by norm_num)).1, (h.2.2.2 (by norm_num)).2.1, (h.2.2.2 (by norm_num)).2.2⟩

/-- C9: a configured group name matching no group in the list is not an
error: the key set stays empty, exactly as when no group is configured at
all — and therefore `render` and `computePhases`, which branch only on
`m_keys.empty()`, operate in whole-buffer mode. -/
theorem wave_c9_unresolved_group (groupStr : String) (groups : List KeyGroupModel)
    (hne : ¬ groupStr.isEmpty) (hmiss : ∀ g ∈ groups, g.name ≠ groupStr) :
    selectKeys groupStr groups = [] ∧
      selectKeys groupStr groups = selectKeys (String.mk []) groups := by
  have hfind : groups.find? (fun g => g.name == groupStr) = none := by
    rw [List.find?_eq_none]
    intro g hg
    simpa using hmiss g hg
  unfold selectKeys
  rw [if_neg hne, hfind]
  exact ⟨rfl, rfl⟩

/-- C9 witness: looking up "fnkeys" in a list containing only "alphas"
leaves the key set empty and equal to the no-group configuration. -/
theorem wave_c9_unresolved_group_witness :
    selectKeys witnessGroupName [⟨otherGroupName, [3, 4, 5]⟩] = [] ∧
      selectKeys witnessGroupName [⟨otherGroupName, [3, 4, 5]⟩] =
        selectKeys (String.mk []) [⟨otherGroupName, [3, 4, 5]⟩] := by
  exact wave_c9_unresolved_group witnessGroupName [⟨otherGroupName, [3, 4, 5]⟩]
    (by decide) (by decide)

theorem tmod_bounds (a b : Int) (hb : 0 < b) : -b < a.tmod b ∧ a.tmod b < b := by
  refine ⟨?_, Int.tmod_lt_of_pos a hb⟩
  rcases a with m | m
  · have h : (0 : Int) ≤ (Int.ofNat m).tmod b :=
      Int.tmod_nonneg b (show (0 : Int) ≤ (m : Int) from Int.natCast_nonneg m)
    omega
  · rcases b with n | n
    · show -(Int.ofNat n) < (Int.negSucc m).tmod (Int.ofNat n)
      have heq : (Int.negSucc m).tmod (Int.ofNat n) = -(((m : Int) + 1) % (n : Int)) := rfl
      have hb' : (0 : Int) < (n : Int) := hb
      have hlt : ((m : Int) + 1) % (n : Int) < (n : Int) := Int.emod_lt_of_pos _ hb'
      have hcast : -(Int.ofNat n) = -((n : Int)) := rfl
      rw [heq, hcast]
      omega
    · exact absurd hb (by exact Int.not_lt.mpr (Int.negSucc_lt_zero n).le)

theorem phaseVal_bounds (freqX freqY : Int) (bounds pos : KeyPosition) :
    0 ≤ phaseVal freqX freqY bounds pos ∧ phaseVal freqX freqY bounds pos < (accuracy : Int) := by
  unfold phaseVal
  dsimp only
  split
  · norm_num [accuracy]
  · have hb := tmod_bounds ((freqX * normX bounds ((pos.x0 + pos.x1).tdiv 2) +
      freqY * normY bounds ((pos.y0 + pos.y1).tdiv 2)).tdiv (accuracy : Int)) (accuracy : Int)
      (by norm_num [accuracy])
    split <;> omega

theorem blockPhases_mem_bounds (lookup : Nat → Nat → Option KeyPosition)
    (bounds : KeyPosition) (freqX freqY : Int) (bidx : Nat) (b : BlockModel) :
    ∀ p ∈ blockPhases lookup bounds freqX freqY bidx b,
      0 ≤ p ∧ p < (accuracy : Int) := by
  intro p hp
  unfold blockPhases at hp
  rw [List.mem_append] at hp
  rcases hp with hp | hp
  · rw [List.mem_map] at hp
    obtain ⟨kidx, -, hk⟩ := hp
    rcases hl : lookup bidx kidx with - | pos
    · rw [hl] at hk
      simp only at hk
      subst hk
      norm_num [accuracy]
    · rw [hl] at hk
      simp only at hk
      subst hk
      exact phaseVal_bounds freqX freqY bounds pos
  · rw [List.eq_of_mem_replicate hp]
    norm_num [accuracy]

theorem computePhasesFrom_mem_bounds (lookup : Nat → Nat → Option KeyPosition)
    (bounds : KeyPosition) (freqX freqY : Int) :
    ∀ (bs : List BlockModel) (bidx : Nat),
      ∀ p ∈ computePhasesFrom lookup bounds freqX freqY bidx bs,
        0 ≤ p ∧ p < (accuracy : Int) := by
  intro bs
  induction bs with
  | nil => intro bidx p hp; simp [computePhasesFrom] at hp
  | cons b rest ih =>
      intro bidx p hp
      unfold computePhasesFrom at hp
      rw [List.mem_append] at hp
      rcases hp with hp | hp
      · exact blockPhases_mem_bounds lookup bounds freqX freqY bidx b p hp
      · exact ih (bidx + 1) p hp

/-- C2: every entry of the phase table lies in the cyclic domain
`[0, N)` with N = 1024: the truncating `/ accuracy % accuracy` value is
corrected by adding N exactly once when negative, and the special-case
entries are 0 — for every element, in whole-buffer mode and in
explicit-group mode, and for any integer frequency components. -/
theorem wave_c2_phase_range (dev : DeviceModel) (keys : List KeyPosition)
    (freqX freqY : Int) :
    (∀ p ∈ computePhasesWhole dev freqX freqY, 0 ≤ p ∧ p < (accuracy : Int)) ∧
      (∀ p ∈ computePhasesGroup keys dev.bounds freqX freqY, 0 ≤ p ∧ p < (accuracy : Int)) := by
  constructor
  · intro p hp
    exact computePhasesFrom_mem_bounds dev.lookup dev.bounds freqX freqY dev.blocks 0 p hp
  · intro p hp
    unfold computePhasesGroup at hp
    rw [List.mem_map] at hp
    obtain ⟨pos, -, hk⟩ := hp
    subst hk
    exact phaseVal_bounds freqX freqY dev.bounds pos

/-- C2 witness: the phase 1022 computed for the sample device's only
positioned key at frequency components (7, -3) is in `[0, 1024)`, in both
iteration modes. -/
theorem wave_c2_phase_range_witness :
    ((0 : Int) ≤ 1022 ∧ (1022 : Int) < (accuracy : Int)) ∧
      ((0 : Int) ≤ 1022 ∧ (1022 : Int) < (accuracy : Int)) := by
  refine ⟨(wave_c2_phase_range sampleDevice [⟨0, 0, 20, 20⟩] 7 (-3)).1 1022 ?_,
    (wave_c2_phase_range sampleDevice [⟨0, 0, 20, 20⟩] 7 (-3)).2 1022 ?_⟩
  · decide
  · decide

/-- C3: the code normalizes the X midpoint against the X-axis bounds, but
normalizes the Y midpoint against the X-axis bounds as well
(`bounds.x0`, `bounds.x1 - bounds.x0` on both lines), contradicting the
per-axis normalization the spec expects: with bounding box x in [0, 100],
y in [0, 200] and an element with Y midpoint 150, the code yields
normY = 1024 - 1024*150/100 = -512, while the per-axis value is
1024 - 1024*150/200 = 256. -/
theorem wave_c3_y_uses_x_bounds :
    normX ⟨0, 0, 100, 200⟩ 50 = 512 ∧
      normY ⟨0, 0, 100, 200⟩ 150 = -512 ∧
      normYSpec ⟨0, 0, 100, 200⟩ 150 = 256 ∧
      normY ⟨0, 0, 100, 200⟩ 150 ≠ normYSpec ⟨0, 0, 100, 200⟩ 150 := by
  refine ⟨?_, ?_, ?_, ?_⟩ <;> decide

theorem renderSeq_time (ds : List Nat) :
    ∀ s : WaveState, 0 < s.period → s.time < s.period → (∀ d ∈ ds, d ≤ s.period) →
      renderSeq s ds = ⟨(s.time + ds.sum) % s.period, s.period, s.keys, s.phases, s.colors⟩ := by
  induction ds with
  | nil =>
      intro s hper ht _
      simp only [renderSeq, List.foldl_nil, List.sum_nil, Nat.add_zero]
      rw [Nat.mod_eq_of_lt ht]
  | cons d rest ih =>
      intro s hper ht hds
      have hstep : (render s d).1 =
          ⟨(s.time + d) % s.period, s.period, s.keys, s.phases, s.colors⟩ := by
        rw [render_eq]
        simp only
        rw [stepTime_eq_mod _ _ _ ht (hds d (List.mem_cons_self d rest))]
      have h1 : renderSeq s (d :: rest) = renderSeq (render s d).1 rest := rfl
      rw [h1, hstep]
      rw [ih ⟨(s.time + d) % s.period, s.period, s.keys, s.phases, s.colors⟩ hper
        (Nat.mod_lt _ hper) (fun x hx => hds x (List.mem_cons_of_mem d hx))]
      simp only [List.sum_cons]
      congr 1
      rw [Nat.mod_add_mod]
      congr 1
      omega

/-- C7: from any state with the accumulator in `[0, period)`, consuming
deltas of at most one period each that together make exactly one period —
a single delta equal to the period included — returns the time
accumulator, and with it the whole state and the buffer content the
sampler produces, to their values before the advance. -/
theorem wave_c7_periodicity (s : WaveState) (ds : List Nat)
    (hper : 0 < s.period) (ht : s.time < s.period)
    (hds : ∀ d ∈ ds, d ≤ s.period) (hsum : ds.sum = s.period) :
    renderSeq s ds = s ∧ writesAt (renderSeq s ds) = writesAt s := by
  have h := renderSeq_time ds s hper ht hds
  rw [hsum] at h
  have h2 : (s.time + s.period) % s.period = s.time := by
    rw [Nat.add_mod_right, Nat.mod_eq_of_lt ht]
  rw [h2] at h
  exact ⟨h, congrArg writesAt h⟩

/-- C7 witness: starting at accumulator 250 with period 1000, one delta
of 1000 — or deltas 300, 300, 400 — returns the state unchanged. -/
theorem wave_c7_periodicity_witness :
    renderSeq ⟨250, 1000, [], [(0 : Int)], [black]⟩ [1000] =
        ⟨250, 1000, [], [(0 : Int)], [black]⟩ ∧
      renderSeq ⟨250, 1000, [], [(0 : Int)], [black]⟩ [300, 300, 400] =
        ⟨250, 1000, [], [(0 : Int)], [black]⟩ := by
  exact ⟨(wave_c7_periodicity _ [1000] (by norm_num) (by norm_num) (by decide) (by decide)).1,
    (wave_c7_periodicity _ [300, 300, 400] (by norm_num) (by norm_num) (by decide)
      (by decide)).1⟩

/-- C10: with every phase in `[0, N)`, a colour table of exactly N
entries, the accumulator in `[0, period)` and a delta of at most one
period, the colour-table index `render` computes for any element — in
either iteration mode — is strictly below the table length, so no lookup
reads outside the table. -/
theorem wave_c10_lookup_in_bounds (s : WaveState) (ms : Nat)
    (hper : 0 < s.period) (ht : s.time < s.period) (hms : ms ≤ s.period)
    (hcol : s.colors.length = accuracy)
    (hphi : ∀ p ∈ s.phases, 0 ≤ p ∧ p < (accuracy : Int)) :
    ∀ i : Nat,
      (renderIndex ((globalPhase (stepTime s.time s.period ms) s.period : Nat) : Int)
          (s.phases.getD i 0)).toNat < s.colors.length := by
  intro i
  have hstep : stepTime s.time s.period ms < s.period := by
    rw [stepTime_eq_mod _ _ _ ht hms]
    exact Nat.mod_lt _ hper
  have hgp := globalPhase_lt _ _ hper hstep
  have hb := phases_getD_bounds s.phases i hphi
  have h1 : (0 : Int) ≤ ((globalPhase (stepTime s.time s.period ms) s.period : Nat) : Int) :=
    Int.natCast_nonneg _
  have h2 : ((globalPhase (stepTime s.time s.period ms) s.period : Nat) : Int) <
      (accuracy : Int) := by
    exact_mod_cast hgp
  have hr := renderIndex_bounds _ _ h1 h2 hb.1 hb.2
  rw [hcol]
  omega

/-- C10 witness: the theorem at a concrete state — time 100, period 1000,
delta 50, phase table `[5]`, a full 1024-entry colour table — element 0. -/
theorem wave_c10_lookup_in_bounds_witness :
    (renderIndex ((globalPhase (stepTime 100 1000 50) 1000 : Nat) : Int)
        (([(5 : Int)]).getD 0 0)).toNat < (List.replicate accuracy black).length := by
  exact wave_c10_lookup_in_bounds ⟨100, 1000, [], [(5 : Int)], List.replicate accuracy black⟩ 50
    (by norm_num) (by norm_num) (by norm_num) (by simp) (by decide) 0

theorem blockPhases_length (lookup : Nat → Nat → Option KeyPosition) (bounds : KeyPosition)
    (freqX freqY : Int) (bidx : Nat) (b : BlockModel) (h : b.keyCount ≤ b.capacity) :
    (blockPhases lookup bounds freqX freqY bidx b).length = b.capacity := by
  unfold blockPhases
  rw [List.length_append, List.length_map, List.length_range, List.length_replicate]
  omega

theorem blockPhases_getD_key (lookup : Nat → Nat → Option KeyPosition) (bounds : KeyPosition)
    (freqX freqY : Int) (bidx : Nat) (b : BlockModel) (j : Nat) (hj : j < b.keyCount) :
    (blockPhases lookup bounds freqX freqY bidx b).getD j 0 =
      (match lookup bidx j with
        | none => 0
        | some pos => phaseVal freqX freqY bounds pos) := by
  unfold blockPhases
  rw [List.getD_append _ _ _ _ (by simpa using hj)]
  rw [List.getD_eq_getElem _ _ (by simpa using hj), List.getElem_map, List.getElem_range]

theorem blockPhases_getD_pad (lookup : Nat → Nat → Option KeyPosition) (bounds : KeyPosition)
    (freqX freqY : Int) (bidx : Nat) (b : BlockModel) (j : Nat) (h1 : b.keyCount ≤ j)
    (hj : j < b.capacity) :
    (blockPhases lookup bounds freqX freqY bidx b).getD j 0 = 0 := by
  unfold blockPhases
  rw [List.getD_append_right _ _ _ _ (by simpa using h1)]
  simp only [List.length_map, List.length_range]
  rw [List.getD_eq_getElem _ _ (by rw [List.length_replicate]; omega), List.getElem_replicate]

theorem computePhasesFrom_length (lookup : Nat → Nat → Option KeyPosition)
    (bounds : KeyPosition) (freqX freqY : Int) :
    ∀ (bs : List BlockModel) (bidx : Nat), (∀ b ∈ bs, b.keyCount ≤ b.capacity) →
      (computePhasesFrom lookup bounds freqX freqY bidx bs).length = capSum bs := by
  intro bs
  induction bs with
  | nil => intro bidx _; simp [computePhasesFrom, capSum]
  | cons b rest ih =>
      intro bidx h
      unfold computePhasesFrom
      rw [List.length_append,
        blockPhases_length lookup bounds freqX freqY bidx b (h b (List.mem_cons_self b rest)),
        ih (bidx + 1) (fun x hx => h x (List.mem_cons_of_mem b hx))]
      simp [capSum]

theorem computePhasesFrom_entry (lookup : Nat → Nat → Option KeyPosition)
    (bounds : KeyPosition) (freqX freqY : Int) :
    ∀ (pre : List BlockModel) (b : BlockModel) (post : List BlockModel) (bidx0 : Nat),
      (∀ x ∈ pre ++ b :: post, x.keyCount ≤ x.capacity) →
      ∀ j, j < b.capacity →
        (computePhasesFrom lookup bounds freqX freqY bidx0 (pre ++ b :: post)).getD
            (capSum pre + j) 0 =
          (blockPhases lookup bounds freqX freqY (bidx0 + pre.length) b).getD j 0 := by
  intro pre
  induction pre with
  | nil =>
      intro b post bidx0 hcap j hj
      have hcapb : b.keyCount ≤ b.capacity := hcap b (by simp)
      have hlen : (blockPhases lookup bounds freqX freqY bidx0 b).length = b.capacity :=
        blockPhases_length lookup bounds freqX freqY bidx0 b hcapb
      show (blockPhases lookup bounds freqX freqY bidx0 b ++
          computePhasesFrom lookup bounds freqX freqY (bidx0 + 1) post).getD
          (capSum [] + j) 0 = _
      have hcs : capSum [] = 0 := rfl
      rw [hcs, Nat.zero_add, List.getD_append _ _ _ _ (by rw [hlen]; exact hj)]
      simp
  | cons p pre ih =>
      intro b post bidx0 hcap j hj
      have hcapp : p.keyCount ≤ p.capacity := hcap p (by simp)
      have hlen : (blockPhases lookup bounds freqX freqY bidx0 p).length = p.capacity :=
        blockPhases_length lookup bounds freqX freqY bidx0 p hcapp
      have hcs : capSum (p :: pre) = p.capacity + capSum pre := by
        simp [capSum]
      show (blockPhases lookup bounds freqX freqY bidx0 p ++
          computePhasesFrom lookup bounds freqX freqY (bidx0 + 1) (pre ++ b :: post)).getD
          (capSum (p :: pre) + j) 0 = _
      rw [hcs, List.getD_append_right _ _ _ _ (by rw [hlen]; omega), hlen]
      have hidx : p.capacity + capSum pre + j - p.capacity = capSum pre + j := by omega
      rw [hidx, ih b post (bidx0 + 1) (fun x hx => hcap x (List.mem_cons_of_mem p hx)) j hj]
      have harith : bidx0 + 1 + pre.length = bidx0 + (p :: pre).length := by
        simp
        omega
      rw [harith]

/-- C8: in whole-buffer mode the phase table is index-aligned with the
full render target: its length is the buffer length (the sum of all
block slot counts); the entry for a key missing from the key database is
0; and each slot past a block's keys (padding between blocks) holds a
filler entry 0. -/
theorem wave_c8_whole_buffer_alignment (dev : DeviceModel) (freqX freqY : Int)
    (hcap : ∀ b ∈ dev.blocks, b.keyCount ≤ b.capacity) :
    (computePhasesWhole dev freqX freqY).length = bufferLength dev ∧
      ∀ (pre : List BlockModel) (b : BlockModel) (post : List BlockModel),
        dev.blocks = pre ++ b :: post →
        ∀ j : Nat,
          (j < b.keyCount → dev.lookup pre.length j = none →
            (computePhasesWhole dev freqX freqY).getD (capSum pre + j) 0 = 0) ∧
          (b.keyCount ≤ j → j < b.capacity →
            (computePhasesWhole dev freqX freqY).getD (capSum pre + j) 0 = 0) := by
  constructor
  · exact computePhasesFrom_length dev.lookup dev.bounds freqX freqY dev.blocks 0 hcap
  · intro pre b post hdec j
    have hcap' : ∀ x ∈ pre ++ b :: post, x.keyCount ≤ x.capacity := by
      rw [← hdec]; exact hcap
    have hcapb : b.keyCount ≤ b.capacity := hcap' b (by simp)
    constructor
    · intro hj hnone
      have h := computePhasesFrom_entry dev.lookup dev.bounds freqX freqY pre b post 0 hcap'
        j (lt_of_lt_of_le hj hcapb)
      unfold computePhasesWhole
      rw [hdec, h, Nat.zero_add,
        blockPhases_getD_key dev.lookup dev.bounds freqX freqY pre.length b j hj, hnone]
    · intro hj1 hj2
      have h := computePhasesFrom_entry dev.lookup dev.bounds freqX freqY pre b post 0 hcap'
        j hj2
      unfold computePhasesWhole
      rw [hdec, h, Nat.zero_add,
        blockPhases_getD_pad dev.lookup dev.bounds freqX freqY pre.length b j hj1 hj2]

/-- C8 witness: the sample device (one block, two keys, four slots, key
(0,1) missing from the database) — the table length is the buffer length
4, the missing-key entry is 0, and the padding entry is 0. -/
theorem wave_c8_whole_buffer_alignment_witness :
    (computePhasesWhole sampleDevice 7 (-3)).length = bufferLength sampleDevice ∧
      (computePhasesWhole sampleDevice 7 (-3)).getD 1 0 = 0 ∧
      (computePhasesWhole sampleDevice 7 (-3)).getD 2 0 = 0 := by
  have h := wave_c8_whole_buffer_alignment sampleDevice 7 (-3) (by decide)
  refine ⟨h.1, ?_, ?_⟩
  · have h2 := (h.2 [] ⟨2, 4⟩ [] rfl 1).1 (by norm_num) (by decide)
    simpa [capSum] using h2
  · have h3 := (h.2 [] ⟨2, 4⟩ [] rfl 2).2 (by norm_num) (by norm_num)
    simpa [capSum] using h3

end Keyleds
